import Mathlib

/-!
Shallow embedding of the FormBuilder repository's validation engine,
derived-field evaluator, form-session orchestration and persistence
gateway, together with proofs of the specification's claims about them.

Source files embedded here:
- src/src/utils/validation.ts (class ValidationManager)
- src/src/utils/storage.ts and the in-memory StorageManager of
  src/unnamed/part_001 (lines 120-136)
- src/unnamed/part_000 (class FormBuilder: addValidation)
- src/unnamed/part_001 (validateField / validateRule / validateForm,
  updateDerivedFields, handleFormSubmit, saveForm)
- src/unnamed/part_002 (class FormPreview and the type declarations)
-/

/-! ## Data model (src/unnamed/part_002, type declarations) -/

/-- The closed enumeration `FieldType` of field kinds. -/
inductive FieldType
  | text
  | number
  | textarea
  | select
  | radio
  | checkbox
  | date
deriving DecidableEq, Repr

/-- The closed enumeration `ValidationType` of validation-rule kinds. -/
inductive ValidationType
  | required
  | minLength
  | maxLength
  | email
  | password
deriving DecidableEq, Repr

/-- `interface ValidationRule`: the rule kind, the optional numeric
threshold (`value?: number`, used by minLength/maxLength) and the
user-facing message. -/
structure ValidationRule where
  type : ValidationType
  value : Option Int
  message : String
deriving DecidableEq, Repr

/-- A runtime form value: JS `undefined` (absent key), a string, or an
array of strings (checkbox selections).  The TS `FormData` index type also
admits `number`, but every write in the sources stores a string or a
string array, so those are the representable values. -/
inductive Value
  | undef
  | str (s : String)
  | arr (xs : List String)
deriving DecidableEq, Repr

/-- `interface FormField`.  Optional members are modelled with their
JS-falsy defaults: `isDerived?: boolean` as a `Bool` (absent = false),
`derivedFormula?: string` as a `String` (absent = ""). -/
structure FormField where
  id : String
  type : FieldType
  label : String
  required : Bool
  defaultValue : Value
  validations : List ValidationRule
  options : List String
  isDerived : Bool
  derivedFormula : String
  derivedFrom : List String
deriving DecidableEq, Repr

/-- `interface FormSchema`. -/
structure FormSchema where
  id : String
  name : String
  fields : List FormField
  createdAt : String
deriving DecidableEq, Repr

/-- `interface FormData`: a JS object keyed by field id, modelled as an
association list; a key written twice is shadowed by the later write,
which `insertData`/`lookupData` realise by prepending and taking the
first match. -/
abbrev FormData := List (String × Value)

/-- `interface FormErrors`: field id to current error message. -/
abbrev FormErrors := List (String × String)

/-- Reading `data[k]`: the JS member access yields `undefined` when the
key is absent. -/
def lookupData (data : FormData) (k : String) : Value :=
  match data.find? (fun p => p.1 == k) with
  | some p => p.2
  | none => Value.undef

/-- Writing `data[k] = v`. -/
def insertData (data : FormData) (k : String) (v : Value) : FormData :=
  (k, v) :: data

/-! ## Validation engine (src/src/utils/validation.ts, and the identical
functions of src/unnamed/part_001 lines 67-118) -/

/-- JavaScript whitespace (the regex class `\s`), needed by the email
regex: space, tab, line and page separators, NBSP and the Unicode space
block, and the BOM. -/
def jsWhitespace (c : Char) : Bool :=
  c.toNat = 0x20 || c.toNat = 0x09 || c.toNat = 0x0a || c.toNat = 0x0b ||
  c.toNat = 0x0c || c.toNat = 0x0d || c.toNat = 0xa0 || c.toNat = 0x1680 ||
  (0x2000 ≤ c.toNat && c.toNat ≤ 0x200a) || c.toNat = 0x2028 ||
  c.toNat = 0x2029 || c.toNat = 0x202f || c.toNat = 0x205f ||
  c.toNat = 0x3000 || c.toNat = 0xfeff

/-- A character admissible inside the three parts of the email regex:
anything that is neither whitespace nor `@` (the class `[^\s@]`). -/
def emailOkChar (c : Char) : Bool :=
  !jsWhitespace c && c != '@'

/-- Splits a character list at its first `'@'`, returning the part before
(which therefore contains no `'@'`) and the part after; `none` when no
`'@'` occurs. -/
def splitAtFirstAmp : List Char → Option (List Char × List Char)
  | [] => none
  | c :: cs =>
    if c = '@' then some ([], cs)
    else (splitAtFirstAmp cs).map (fun p => (c :: p.1, p.2))

/-- Decides the email regex `^[^\s@]+@[^\s@]+\.[^\s@]+$` used by
`validateEmail`: one `@` with a non-empty admissible part before it, an
admissible part after it that contains a `.` which is neither its first
nor its last character (so both the part between `@` and that `.` and
the part after it are non-empty). -/
def emailMatches (s : String) : Bool :=
  match splitAtFirstAmp s.data with
  | none => false
  | some (a, r) =>
    !a.isEmpty && a.all emailOkChar && r.all emailOkChar &&
    ((r.drop 1).dropLast.contains '.')

/-- The language of the email regex, stated declaratively as the spec
reads it: the string decomposes as `local@domain.tld` with the three
parts non-empty and every character of them neither whitespace nor `@`
(`domain` and `tld` may themselves contain further dots). -/
def EmailPattern (s : String) : Prop :=
  ∃ a b c : List Char,
    s.data = a ++ '@' :: (b ++ '.' :: c) ∧
    a ≠ [] ∧ b ≠ [] ∧ c ≠ [] ∧
    (∀ x ∈ a, emailOkChar x = true) ∧
    (∀ x ∈ b, emailOkChar x = true) ∧
    (∀ x ∈ c, emailOkChar x = true)

/-- `ValidationManager.validateRule` (validation.ts lines 14-64; the same
switch appears in src/unnamed/part_001 lines 76-106).  JS truthiness:
`!value` holds for `undefined` and for the empty string, never for an
array; `value && ...` guards on a non-empty string; `rule.value || 0`
defaults an absent threshold to 0. -/
def validateRule (rule : ValidationRule) (value : Value) : String :=
  match rule.type with
  | ValidationType.required =>
    match value with
    | Value.undef => rule.message
    | Value.str s => if s = "" then rule.message else ""
    | Value.arr xs => if xs = [] then rule.message else ""
  | ValidationType.minLength =>
    match value with
    | Value.str s => if (s.length : Int) < rule.value.getD 0 then rule.message else ""
    | _ => ""
  | ValidationType.maxLength =>
    match value with
    | Value.str s => if (s.length : Int) > rule.value.getD 0 then rule.message else ""
    | _ => ""
  | ValidationType.email =>
    match value with
    | Value.str s => if s ≠ "" ∧ emailMatches s = false then rule.message else ""
    | _ => ""
  | ValidationType.password =>
    match value with
    | Value.str s =>
      if s ≠ "" ∧ (s.length < 8 ∨ s.data.all (fun c => !c.isDigit)) then rule.message else ""
    | _ => ""

/-- The loop body of `ValidationManager.validateField`: walk the rule
list, returning the first truthy (non-empty) error. -/
def validateRules (rules : List ValidationRule) (value : Value) : String :=
  match rules with
  | [] => ""
  | r :: rest =>
    let e := validateRule r value
    if e ≠ "" then e else validateRules rest value

/-- `ValidationManager.validateField` (validation.ts lines 4-12). -/
def validateField (field : FormField) (value : Value) : String :=
  validateRules field.validations value

/-- `ValidationManager.validateForm` (validation.ts lines 66-78): runs
`validateField` on every field with its current value and collects the
truthy errors keyed by field id. -/
def validateForm (fields : List FormField) (data : FormData) : FormErrors :=
  match fields with
  | [] => []
  | f :: rest =>
    let e := validateField f (lookupData data f.id)
    if e ≠ "" then (f.id, e) :: validateForm rest data
    else validateForm rest data

/-- `ValidationManager.hasErrors` (validation.ts lines 80-82). -/
def hasErrors (errors : FormErrors) : Bool :=
  errors.any (fun p => p.2 ≠ "")

/-! ## JavaScript numeric coercion, as used by `updateDerivedFields`
(src/unnamed/part_001 lines 571-577):
`const fieldValue = newData[f.id] || '';`
`const numericValue = isNaN(Number(fieldValue)) ? 0 : parseFloat(String(fieldValue));` -/

/-- The `fieldValue || ''` step: a falsy value (`undefined` or the empty
string) is replaced by the empty string; arrays, even empty ones, are
truthy and kept. -/
def orEmpty (v : Value) : Value :=
  match v with
  | Value.undef => Value.str ""
  | v => v

/-- JS `String(v)` for the values occurring here: strings are themselves,
arrays stringify by joining their elements with a comma. -/
def jsToString : Value → String
  | Value.undef => "undefined"
  | Value.str s => s
  | Value.arr xs => String.intercalate "," xs

/-- Strip JS whitespace from both ends, as `Number` does before parsing. -/
def trimJs (cs : List Char) : List Char :=
  ((cs.dropWhile jsWhitespace).reverse.dropWhile jsWhitespace).reverse

def isHexDigit (c : Char) : Bool :=
  c.isDigit || ('a' ≤ c && c ≤ 'f') || ('A' ≤ c && c ≤ 'F')

def isOctDigit (c : Char) : Bool :=
  '0' ≤ c && c ≤ '7'

def isBinDigit (c : Char) : Bool :=
  c = '0' || c = '1'

/-- An optional exponent suffix closing a decimal numeric literal:
either nothing, or `e`/`E`, an optional sign, and at least one digit. -/
def expTailOk : List Char → Bool
  | [] => true
  | e :: r =>
    if e = 'e' || e = 'E' then
      let r' := match r with
        | c :: r'' => if c = '+' || c = '-' then r'' else c :: r''
        | [] => []
      !r'.isEmpty && r'.all Char.isDigit
    else false

/-- A full (unsigned) decimal literal: `digits [. digits] [exp]` or
`. digits [exp]`. -/
def decimalLiteralOk (cs : List Char) : Bool :=
  let d1 := cs.takeWhile Char.isDigit
  let r1 := cs.dropWhile Char.isDigit
  match r1 with
  | '.' :: r2 =>
    let d2 := r2.takeWhile Char.isDigit
    let r3 := r2.dropWhile Char.isDigit
    (!d1.isEmpty || !d2.isEmpty) && expTailOk r3
  | _ => !d1.isEmpty && expTailOk r1

def unsignedNumericOk (cs : List Char) : Bool :=
  cs = "Infinity".data || decimalLiteralOk cs

/-- The string numeric literals accepted by JS `Number(...)`: an
optionally signed decimal literal or `Infinity`, or an unsigned
hex/octal/binary literal. -/
def numericLiteralOk (t : List Char) : Bool :=
  match t with
  | '0' :: c :: rest =>
    if c = 'x' || c = 'X' then !rest.isEmpty && rest.all isHexDigit
    else if c = 'o' || c = 'O' then !rest.isEmpty && rest.all isOctDigit
    else if c = 'b' || c = 'B' then !rest.isEmpty && rest.all isBinDigit
    else decimalLiteralOk t
  | '+' :: rest => unsignedNumericOk rest
  | '-' :: rest => unsignedNumericOk rest
  | _ => unsignedNumericOk t

/-- Whether `isNaN(Number(s))` is true for a string `s`: `Number` trims
whitespace, maps the empty remainder to `0` (not NaN), and otherwise
requires the whole remainder to be a numeric literal. -/
def strNumberIsNaN (s : String) : Bool :=
  let t := trimJs s.data
  if t.isEmpty then false else !numericLiteralOk t

/-- Whether `isNaN(Number(v))` is true: `undefined` is NaN; arrays
coerce through their comma-joined string form. -/
def numberIsNaN (v : Value) : Bool :=
  match v with
  | Value.undef => true
  | Value.str s => strNumberIsNaN s
  | Value.arr xs => strNumberIsNaN (String.intercalate "," xs)

/-- A JS number as this development models it: NaN, a signed infinity,
or an exact fraction `num / den` (`den` is positive by construction and
the fraction is deliberately left unnormalised).  IEEE-754 rounding is
not modelled; every value actually arising in the claims is an exact
small decimal. -/
inductive JNum
  | nan
  | inf (neg : Bool)
  | rat (num : Int) (den : Nat)
deriving DecidableEq, Repr

def digitsToNat (ds : List Char) : Nat :=
  ds.foldl (fun n c => 10 * n + (c.toNat - '0'.toNat)) 0

/-- JS `parseFloat(s)`: skip leading whitespace, take an optional sign,
accept `Infinity`, otherwise parse the longest decimal-literal prefix
(integer digits, optional dot and fraction digits, optional well-formed
exponent); NaN when no digits are found.  Hex prefixes naturally stop
after their leading `0`. -/
def parseFloatStr (s : String) : JNum :=
  let t := s.data.dropWhile jsWhitespace
  let neg := match t with
    | '-' :: _ => true
    | _ => false
  let u := match t with
    | '+' :: r => r
    | '-' :: r => r
    | _ => t
  if "Infinity".data.isPrefixOf u then JNum.inf neg
  else
    let d1 := u.takeWhile Char.isDigit
    let r1 := u.dropWhile Char.isDigit
    let p := match r1 with
      | '.' :: r2 => (r2.takeWhile Char.isDigit, r2.dropWhile Char.isDigit)
      | _ => ([], r1)
    let d2 := p.1
    let r3 := p.2
    if d1.isEmpty && d2.isEmpty then JNum.nan
    else
      let mant : Int := (digitsToNat (d1 ++ d2) : Int)
      let exp : Int := match r3 with
        | e :: rest =>
          if e = 'e' || e = 'E' then
            let q := match rest with
              | '+' :: r => ((1 : Int), r)
              | '-' :: r => ((-1 : Int), r)
              | _ => ((1 : Int), rest)
            let ed := q.2.takeWhile Char.isDigit
            if ed.isEmpty then 0 else q.1 * (digitsToNat ed : Int)
          else 0
        | [] => 0
      let signedMant := if neg then -mant else mant
      let e' : Int := exp - (d2.length : Int)
      if 0 ≤ e' then JNum.rat (signedMant * ((10 : Int) ^ e'.toNat)) 1
      else JNum.rat signedMant ((10 : Nat) ^ (-e').toNat)

/-- Renders the fraction `n / d` the way JS renders the exact decimals
arising here: an exact decimal expansion without trailing fractional
zeros.  JS exponential notation for very large or tiny magnitudes and
double rounding are not modelled; a fraction with no short decimal
expansion gets a diagnostic `num/den` form (no claim depends on it). -/
def fracToString (n : Int) (d : Nat) : String :=
  if n = 0 then "0"
  else
    let sign := if n < 0 then "-" else ""
    match (List.range 41).find? (fun k => n.natAbs * 10 ^ k % d = 0) with
    | some k =>
      let m := n.natAbs * 10 ^ k / d
      let ds := Nat.toDigits 10 m
      let ds := if ds.length ≤ k then List.replicate (k + 1 - ds.length) '0' ++ ds else ds
      if k = 0 then sign ++ String.mk ds
      else sign ++ String.mk (ds.take (ds.length - k)) ++ "." ++ String.mk (ds.drop (ds.length - k))
    | none => sign ++ Nat.repr n.natAbs ++ "/" ++ Nat.repr d

/-- JS `Number.prototype.toString` on the modelled numbers. -/
def JNum.toString : JNum → String
  | JNum.nan => "NaN"
  | JNum.inf neg => if neg then "-Infinity" else "Infinity"
  | JNum.rat n d => fracToString n d

/-- The numeric value substituted for a referenced field by
`updateDerivedFields`:
`isNaN(Number(fieldValue)) ? 0 : parseFloat(String(fieldValue))`
applied after `fieldValue = newData[f.id] || ''`. -/
def coerceNumeric (v : Value) : JNum :=
  let fv := orEmpty v
  if numberIsNaN fv then JNum.rat 0 1 else parseFloatStr (jsToString fv)

/-! ## Arithmetic on JS numbers (for evaluating whitelisted formulas) -/

def JNum.neg : JNum → JNum
  | JNum.nan => JNum.nan
  | JNum.inf b => JNum.inf (!b)
  | JNum.rat n d => JNum.rat (-n) d

def JNum.add : JNum → JNum → JNum
  | JNum.nan, _ => JNum.nan
  | _, JNum.nan => JNum.nan
  | JNum.inf a, JNum.inf b => if a = b then JNum.inf a else JNum.nan
  | JNum.inf a, JNum.rat _ _ => JNum.inf a
  | JNum.rat _ _, JNum.inf b => JNum.inf b
  | JNum.rat n1 d1, JNum.rat n2 d2 => JNum.rat (n1 * d2 + n2 * d1) (d1 * d2)

def JNum.sub (x y : JNum) : JNum := x.add y.neg

def JNum.mul : JNum → JNum → JNum
  | JNum.nan, _ => JNum.nan
  | _, JNum.nan => JNum.nan
  | JNum.inf a, JNum.inf b => JNum.inf (a != b)
  | JNum.inf a, JNum.rat n _ => if n = 0 then JNum.nan else JNum.inf (a != decide (n < 0))
  | JNum.rat n _, JNum.inf b => if n = 0 then JNum.nan else JNum.inf (decide (n < 0) != b)
  | JNum.rat n1 d1, JNum.rat n2 d2 => JNum.rat (n1 * n2) (d1 * d2)

/-- Division, with JS semantics at the poles: `x/0` is a signed infinity
for `x ≠ 0` and NaN for `0/0` (a signed zero is not modelled). -/
def JNum.div : JNum → JNum → JNum
  | JNum.nan, _ => JNum.nan
  | _, JNum.nan => JNum.nan
  | JNum.inf _, JNum.inf _ => JNum.nan
  | JNum.inf a, JNum.rat n _ => JNum.inf (a != decide (n < 0))
  | JNum.rat _ _, JNum.inf _ => JNum.rat 0 1
  | JNum.rat n1 d1, JNum.rat n2 d2 =>
    if n2 = 0 then (if n1 = 0 then JNum.nan else JNum.inf (decide (n1 < 0)))
    else JNum.rat (n1 * d2 * (if n2 < 0 then -1 else 1)) (d1 * n2.natAbs)

/-- Fixed-point approximation of `b ^ (fn / fd)` for `0 ≤ fn < fd`:
`bS` is the base scaled by `10 ^ 24`, and the result carries the same
scale.  The fractional exponent is expanded into 40 binary digits and
the corresponding iterated square roots of the base are multiplied
together. -/
def powFracApprox (bS fn fd : Nat) : Nat :=
  let S := 10 ^ 24
  (((List.range 40).foldl
    (fun st _ =>
      let cur := Nat.sqrt (st.2.1 * S)
      let fn2 := 2 * st.1
      if fd ≤ fn2 then (fn2 - fd, cur, st.2.2 * cur / S) else (fn2, cur, st.2.2))
    (fn, bS, S)).2).2

/-- Approximation of `(nb / bd) ^ (en / ed)` for a positive base and a
positive non-integer exponent: the integer part of the exponent is
applied exactly, the fractional part through `powFracApprox`. -/
def powPosApprox (nb bd en ed : Nat) : JNum :=
  let S := 10 ^ 24
  let i := en / ed
  let bS := nb * S / bd
  JNum.rat ((nb ^ i * powFracApprox bS (en % ed) ed : Nat) : Int) (bd ^ i * S)

/-- JS exponentiation (`**`, Math.pow semantics): any base to exponent 0
is 1, NaN propagates otherwise, an exponent of ±Infinity compares |base|
with 1 (equality giving NaN), infinite and zero bases follow the sign
rules of the spec (signed zeros collapse to 0), a negative finite base
with a non-integer exponent is NaN, integer exponents are computed
exactly, and the remaining case — positive base, non-integer exponent —
is irrational in general and is represented by the explicit rational
approximation above (no theorem inspects evaluated values, only whether
evaluation succeeds). -/
def JNum.pow (x y : JNum) : JNum :=
  match y with
  | JNum.nan => JNum.nan
  | JNum.inf eneg =>
    match x with
    | JNum.nan => JNum.nan
    | JNum.inf _ => if eneg then JNum.rat 0 1 else JNum.inf false
    | JNum.rat bn bd =>
      if bn.natAbs = bd then JNum.nan
      else if bd < bn.natAbs then (if eneg then JNum.rat 0 1 else JNum.inf false)
      else (if eneg then JNum.inf false else JNum.rat 0 1)
  | JNum.rat en ed =>
    if en = 0 then JNum.rat 1 1
    else
      match x with
      | JNum.nan => JNum.nan
      | JNum.inf bneg =>
        if 0 < en then
          if bneg ∧ en % (ed : Int) = 0 ∧ (en / (ed : Int)) % 2 ≠ 0 then JNum.inf true
          else JNum.inf false
        else JNum.rat 0 1
      | JNum.rat bn bd =>
        if bn = 0 then (if 0 < en then JNum.rat 0 1 else JNum.inf false)
        else if en % (ed : Int) = 0 then
          let i := en / (ed : Int)
          if 0 ≤ i then JNum.rat (bn ^ i.toNat) (bd ^ i.toNat)
          else
            let k := (-i).toNat
            JNum.rat ((if bn < 0 ∧ k % 2 = 1 then -1 else 1) * (bd : Int) ^ k) (bn.natAbs ^ k)
        else if bn < 0 then JNum.nan
        else if 0 < en then powPosApprox bn.natAbs bd en.toNat ed
        else powPosApprox bd bn.natAbs (-en).toNat ed

/-! ## Evaluation of a whitelisted formula: models
`Function('"use strict"; return (' + formula + ')')()` on strings that
passed the whitelist.  A failure (`none`) models a thrown error, which
the source catches; on whitelist-passing strings the failure set tracks
exactly what strict-mode JS throws — lexical SyntaxErrors (numeric
literals with a leading zero, the `++`/`--` punctuators, a lone dot),
parse-shape SyntaxErrors (juxtaposed literals, empty or unbalanced
parentheses, a signed operand directly before `**`), and the runtime
TypeError of call-shaped inputs such as `5(2)`. -/

inductive Tok
  | num (val : Nat) (scale : Nat)
  | plus
  | minus
  | star
  | starstar
  | slash
  | lparen
  | rparen
deriving DecidableEq, Repr

/-- Tokenizer for the whitelisted character set (digits, `+ - * / ( ) .`
and spaces); any other character fails.  Maximal munch lexes adjacent
`**` as the exponentiation punctuator and adjacent `++`/`--` as the
update punctuators — which, applied to literals or parenthesised
expressions (the only operands the whitelist admits), are strict-mode
early SyntaxErrors, hence `none`.  A decimal integer part with a leading
zero (`08`, `012`, `00`) is a strict-mode SyntaxError as well.  The fuel
is the remaining input length, so it never runs out. -/
def tokenizeAux : Nat → List Char → Option (List Tok)
  | _, [] => some []
  | 0, _ :: _ => none
  | fuel + 1, c :: cs =>
    if c = ' ' then tokenizeAux fuel cs
    else if c = '+' then
      match cs with
      | '+' :: _ => none
      | _ => (tokenizeAux fuel cs).map (Tok.plus :: ·)
    else if c = '-' then
      match cs with
      | '-' :: _ => none
      | _ => (tokenizeAux fuel cs).map (Tok.minus :: ·)
    else if c = '*' then
      match cs with
      | '*' :: cs' => (tokenizeAux fuel cs').map (Tok.starstar :: ·)
      | _ => (tokenizeAux fuel cs).map (Tok.star :: ·)
    else if c = '/' then (tokenizeAux fuel cs).map (Tok.slash :: ·)
    else if c = '(' then (tokenizeAux fuel cs).map (Tok.lparen :: ·)
    else if c = ')' then (tokenizeAux fuel cs).map (Tok.rparen :: ·)
    else if c.isDigit || c = '.' then
      let d1 := (c :: cs).takeWhile Char.isDigit
      let r1 := (c :: cs).dropWhile Char.isDigit
      if 2 ≤ d1.length ∧ d1.headD '1' = '0' then none
      else
        match r1 with
        | '.' :: r2 =>
          let d2 := r2.takeWhile Char.isDigit
          let r3 := r2.dropWhile Char.isDigit
          if d1.isEmpty && d2.isEmpty then none
          else (tokenizeAux fuel r3).map (Tok.num (digitsToNat (d1 ++ d2)) d2.length :: ·)
        | _ => (tokenizeAux fuel r1).map (Tok.num (digitsToNat d1) 0 :: ·)
    else none

def tokenize (s : String) : Option (List Tok) :=
  tokenizeAux s.data.length s.data

mutual

/-- Additive level: `term (('+'|'-') term)*`. -/
def parseExpr : Nat → List Tok → Option (JNum × List Tok)
  | 0, _ => none
  | fuel + 1, ts =>
    match parseTerm fuel ts with
    | none => none
    | some (v, rest) => parseExprLoop fuel v rest

def parseExprLoop : Nat → JNum → List Tok → Option (JNum × List Tok)
  | 0, _, _ => none
  | fuel + 1, v, ts =>
    match ts with
    | Tok.plus :: rest =>
      match parseTerm fuel rest with
      | none => none
      | some (w, rest') => parseExprLoop fuel (v.add w) rest'
    | Tok.minus :: rest =>
      match parseTerm fuel rest with
      | none => none
      | some (w, rest') => parseExprLoop fuel (v.sub w) rest'
    | _ => some (v, ts)

/-- Multiplicative level: `exponentiation (('*'|'/') exponentiation)*`. -/
def parseTerm : Nat → List Tok → Option (JNum × List Tok)
  | 0, _ => none
  | fuel + 1, ts =>
    match parseExpo fuel ts with
    | none => none
    | some (v, rest) => parseTermLoop fuel v rest

def parseTermLoop : Nat → JNum → List Tok → Option (JNum × List Tok)
  | 0, _, _ => none
  | fuel + 1, v, ts =>
    match ts with
    | Tok.star :: rest =>
      match parseExpo fuel rest with
      | none => none
      | some (w, rest') => parseTermLoop fuel (v.mul w) rest'
    | Tok.slash :: rest =>
      match parseExpo fuel rest with
      | none => none
      | some (w, rest') => parseTermLoop fuel (v.div w) rest'
    | _ => some (v, ts)

/-- Exponentiation level, mirroring the ES grammar
`ExponentiationExpression := UnaryExpression
| UpdateExpression ** ExponentiationExpression`: `**` is
right-associative, its left operand must be unsigned (so `-3 ** 2` is a
SyntaxError while `3 ** -2` and `(-3) ** 2` are legal). -/
def parseExpo : Nat → List Tok → Option (JNum × List Tok)
  | 0, _ => none
  | fuel + 1, ts =>
    match ts with
    | Tok.plus :: _ | Tok.minus :: _ =>
      match parseUnaryChain fuel ts with
      | some (_, Tok.starstar :: _) => none
      | r => r
    | _ =>
      match parsePrimary fuel ts with
      | some (v, Tok.starstar :: rest) =>
        match parseExpo fuel rest with
        | none => none
        | some (w, rest') => some (v.pow w, rest')
      | r => r

/-- Unary level: a chain of `+`/`-` signs over a primary. -/
def parseUnaryChain : Nat → List Tok → Option (JNum × List Tok)
  | 0, _ => none
  | fuel + 1, ts =>
    match ts with
    | Tok.plus :: rest => parseUnaryChain fuel rest
    | Tok.minus :: rest => (parseUnaryChain fuel rest).map (fun p => (p.1.neg, p.2))
    | _ => parsePrimary fuel ts

/-- Primary level: a numeric literal or a parenthesised expression. -/
def parsePrimary : Nat → List Tok → Option (JNum × List Tok)
  | 0, _ => none
  | fuel + 1, ts =>
    match ts with
    | Tok.num n k :: rest => some (JNum.rat (n : Int) (10 ^ k), rest)
    | Tok.lparen :: rest =>
      match parseExpr fuel rest with
      | some (v, Tok.rparen :: rest') => some (v, rest')
      | _ => none
    | _ => none

end

/-- Evaluates a formula string, `none` modelling a thrown error
(tokenizer failure, parse failure, or trailing tokens — trailing tokens
cover both juxtaposition SyntaxErrors and the runtime TypeError of
call-shaped expressions, either way caught by the source with the value
left unchanged). -/
def evalFormula (s : String) : Option JNum :=
  match tokenize s with
  | none => none
  | some ts =>
    match parseExpr (6 * ts.length + 6) ts with
    | some (v, []) => some v
    | _ => none

/-! ## Label substitution and the derived-field pass
(src/unnamed/part_001 lines 563-591; the class version is
FormPreview.updateDerivedFields, src/unnamed/part_002 lines 394-427) -/

/-- Literal global replacement of `pat` in a string, as
`formula.replace(new RegExp(escapedLabel, 'g'), text)` performs after the
label's regex metacharacters are escaped: leftmost-first,
non-overlapping, all occurrences. -/
def replaceAllAux (pat rep : List Char) : Nat → List Char → List Char
  | _, [] => []
  | 0, l => l
  | fuel + 1, c :: cs =>
    if pat ≠ [] ∧ pat.isPrefixOf (c :: cs) then
      rep ++ replaceAllAux pat rep fuel (List.drop pat.length (c :: cs))
    else
      c :: replaceAllAux pat rep fuel cs

/-- Entry point of the literal replacement scan; the fuel is the input
length, which suffices because every step consumes at least one
character (the pattern is non-empty in the recursive branch). -/
def replaceAllList (pat rep l : List Char) : List Char :=
  replaceAllAux pat rep l.length l

/-- The replacement as JS performs it, including the empty-pattern case:
an empty (escaped) label yields an empty regex, which matches at every
position and splices the replacement before every character and at the
end. -/
def jsReplaceAll (s pat rep : String) : String :=
  if pat = "" then String.mk (rep.data ++ (s.data.map (fun c => c :: rep.data)).flatten)
  else String.mk (replaceAllList pat.data rep.data s.data)

/-- The inner loop of `updateDerivedFields` for one derived field: every
field `f` of the form with `f.id !== field.id` has all occurrences of its
label replaced by its coerced numeric value, in field order. -/
def substituteLabels (field : FormField) (fields : List FormField) (data : FormData) : String :=
  fields.foldl
    (fun formula f =>
      if f.id ≠ field.id then
        jsReplaceAll formula f.label (coerceNumeric (lookupData data f.id)).toString
      else formula)
    field.derivedFormula

/-- Specification-side comparison loop for the self-exclusion claim: the
same substitution applied unconditionally to a given list of fields. -/
def substituteLabelsAll (formula : String) (fields : List FormField) (data : FormData) : String :=
  fields.foldl
    (fun fm f => jsReplaceAll fm f.label (coerceNumeric (lookupData data f.id)).toString)
    formula

/-- The whitelist gate `/^[\d+\-*\/(). ]+$/.test(formula)`. -/
def formulaWhitelisted (s : String) : Bool :=
  !s.data.isEmpty &&
  s.data.all (fun c => c.isDigit || ['+', '-', '*', '/', '(', ')', '.', ' '].contains c)

/-- The body of the outer `forEach` of `updateDerivedFields` for a single
field: a derived field with a non-empty formula has labels substituted;
if the result passes the whitelist it is evaluated and the textual result
stored under the field's id; a whitelist failure or a caught evaluation
error leaves the data untouched. -/
def derivedStep (fields : List FormField) (data : FormData) (field : FormField) : FormData :=
  if field.isDerived = true ∧ field.derivedFormula ≠ "" then
    let formula := substituteLabels field fields data
    if formulaWhitelisted formula then
      match evalFormula formula with
      | some r => insertData data field.id (Value.str r.toString)
      | none => data
    else data
  else data

/-- `updateDerivedFields` (src/unnamed/part_001 lines 563-591): one pass
over all fields in declaration order, each derived field reading the
data as left by the previous steps. -/
def updateDerivedFields (data : FormData) (form : FormSchema) : FormData :=
  form.fields.foldl (derivedStep form.fields) data

/-- The state owned by the `FormPreview` class of src/unnamed/part_002:
the loaded form, the value map and the error map. -/
structure PreviewState where
  form : FormSchema
  formData : FormData
  formErrors : FormErrors
deriving DecidableEq, Repr

/-- `FormPreview.updateDerivedFields` (src/unnamed/part_002 lines
394-427): the same pass run on the class state; it writes only
`this.formData` (and mirrors values into the DOM), never
`this.formErrors`. -/
def previewUpdateDerivedFields (st : PreviewState) : PreviewState :=
  { st with formData := updateDerivedFields st.formData st.form }

/-! ## Submission (FormPreview.handleFormSubmit, src/unnamed/part_002
lines 429-443; the hook version is src/unnamed/part_001 lines 608-620) -/

inductive SubmitResult
  | validationFailed
  | submitted (data : FormData)
deriving DecidableEq, Repr

/-- `handleFormSubmit`: validate the whole form, store the error map; on
any error report failure and stop, otherwise report success carrying the
current value map. -/
def handleFormSubmit (fields : List FormField) (data : FormData) : SubmitResult × FormErrors :=
  let errors := validateForm fields data
  if hasErrors errors then (SubmitResult.validationFailed, errors)
  else (SubmitResult.submitted data, errors)

/-! ## Adding a validation rule (FormBuilder.addValidation,
src/unnamed/part_000 lines 91-110; the component version is
FieldEditor.addValidation, src/unnamed/part_001 lines 146-159) -/

/-- `DEFAULT_VALIDATION_MESSAGES` (src/src/utils/constants.ts). -/
def defaultValidationMessage : ValidationType → String
  | ValidationType.required => "This field is required"
  | ValidationType.minLength => "Minimum length not met"
  | ValidationType.maxLength => "Maximum length exceeded"
  | ValidationType.email => "Please enter a valid email address"
  | ValidationType.password => "Password must be at least 8 characters with a number"

/-- The rule object built by `addValidation`: the default message, and a
threshold of 1 only for the length rules. -/
def newValidation (t : ValidationType) : ValidationRule :=
  { type := t
    value := if t = ValidationType.minLength ∨ t = ValidationType.maxLength then some 1 else none
    message := defaultValidationMessage t }

/-- `fields.find(f => f.id === fieldId)`. -/
def findField (fields : List FormField) (fid : String) : Option FormField :=
  fields.find? (fun f => f.id == fid)

/-- `FormBuilder.addValidation` on the field list: locate the first field
with the given id; if it already carries a rule of kind `t` the call is
rejected (an alert is shown) and nothing changes, otherwise the new rule
is pushed onto that field's list. -/
def addValidationToFields : List FormField → String → ValidationType → List FormField
  | [], _, _ => []
  | f :: rest, fid, t =>
    if f.id = fid then
      if f.validations.any (fun v => v.type == t) then f :: rest
      else { f with validations := f.validations ++ [newValidation t] } :: rest
    else f :: addValidationToFields rest fid t

/-- `FormBuilder.addValidation` on the whole form state. -/
def addValidation (form : FormSchema) (fieldId : String) (t : ValidationType) : FormSchema :=
  { form with fields := addValidationToFields form.fields fieldId t }

/-! ## Persistence gateway (the in-memory StorageManager of
src/unnamed/part_001 lines 120-136; `saveForm` at lines 626-644 stores a
deep copy of the fields, which on plain records is the identity) -/

namespace StorageManager

/-- `StorageManager.saveForm`: append to the saved-forms collection. -/
def saveForm (store : List FormSchema) (form : FormSchema) : List FormSchema :=
  store ++ [form]

/-- `StorageManager.getFormById`: first form with the given id, if any. -/
def getFormById (store : List FormSchema) (formId : String) : Option FormSchema :=
  store.find? (fun f => f.id == formId)

end StorageManager

/-! ## Concrete fixtures used by witnesses and counterexamples -/

/-- A plain number field labelled `A`. -/
def sampleA : FormField :=
  ⟨"a", FieldType.number, "A", false, Value.str "", [], [], false, "", []⟩

/-- A plain number field labelled `B`. -/
def sampleB : FormField :=
  ⟨"b", FieldType.number, "B", false, Value.str "", [], [], false, "", []⟩

/-- A derived field computing `A + B`. -/
def sampleSum : FormField :=
  ⟨"c", FieldType.text, "C", false, Value.str "", [], [], true, "A + B", []⟩

/-- A derived field whose own label occurs in its own formula. -/
def sampleSelfRef : FormField :=
  ⟨"c", FieldType.text, "C", false, Value.str "", [], [], true, "C + A", []⟩

/-- A form holding `A`, `B` and the derived sum. -/
def sampleSumForm : FormSchema :=
  ⟨"f1", "sum form", [sampleA, sampleB, sampleSum], "2024-01-01"⟩

/-- A required text field with the two default rules of the spec's
rule-order example. -/
def sampleRequiredMin : FormField :=
  ⟨"r", FieldType.text, "R", true, Value.str "",
   [⟨ValidationType.required, none, "This field is required"⟩,
    ⟨ValidationType.minLength, some 3, "Minimum length not met"⟩],
   [], false, "", []⟩

/-! ## Helper lemmas -/

/-- A prefix of rules that all pass contributes nothing. -/
theorem validateRules_append_pass (v : Value) (l1 l2 : List ValidationRule)
    (h : ∀ r ∈ l1, validateRule r v = "") :
    validateRules (l1 ++ l2) v = validateRules l2 v := by
  induction l1 with
  | nil => rfl
  | cons r rest ih =>
    have hr : validateRule r v = "" := h r (List.mem_cons_self r rest)
    have ih' := ih fun r' hr' => h r' (List.mem_cons_of_mem r hr')
    simpa [validateRules, hr] using ih'

/-- The rule walk returns the empty string exactly when every rule
passes. -/
theorem validateRules_eq_empty_iff (rules : List ValidationRule) (v : Value) :
    validateRules rules v = "" ↔ ∀ r ∈ rules, validateRule r v = "" := by
  induction rules with
  | nil => simp [validateRules]
  | cons r rest ih =>
    by_cases hr : validateRule r v = ""
    · simp [validateRules, hr, ih]
    · simp [validateRules, hr]

/-! ## C1: rule order and short-circuit in `validateField` -/

/-- C1.  `validateField` evaluates the `validations` list in declaration
order and returns the message of the first failing rule; the rules after
the first failure (`l2`) do not appear in the result, so they cannot
influence it, and the result is the empty string exactly when no rule
fails. -/
theorem claim1_first_failing_rule_wins
    (field : FormField) (v : Value) (l1 l2 : List ValidationRule) (r : ValidationRule)
    (hsplit : field.validations = l1 ++ r :: l2)
    (hpass : ∀ r' ∈ l1, validateRule r' v = "")
    (hfail : validateRule r v ≠ "") :
    validateField field v = validateRule r v ∧
    (∀ (g : FormField) (w : Value),
      validateField g w = "" ↔ ∀ r' ∈ g.validations, validateRule r' w = "") := by
  constructor
  · unfold validateField
    rw [hsplit, validateRules_append_pass v l1 (r :: l2) hpass]
    simp [validateRules, hfail]
  · intro g w
    exact validateRules_eq_empty_iff g.validations w

/-- C1 witness: for the field with rules `[required, minLength(3)]` and
value `""`, the result is the required rule's message. -/
theorem claim1_witness :
    validateField sampleRequiredMin (Value.str "") = "This field is required" := by
  have h := (claim1_first_failing_rule_wins sampleRequiredMin (Value.str "")
    [] [⟨ValidationType.minLength, some 3, "Minimum length not met"⟩]
    ⟨ValidationType.required, none, "This field is required"⟩
    rfl (by simp) (by decide)).1
  simpa using h

/-! ## C6: non-string rules never fail on array values -/

/-- One rule of a kind other than `required` passes any array value. -/
theorem validateRule_arr_pass (rule : ValidationRule) (xs : List String)
    (h : rule.type ≠ ValidationType.required) :
    validateRule rule (Value.arr xs) = "" := by
  rcases rule with ⟨t, val, msg⟩
  cases t <;> simp_all [validateRule]

/-- C6.  The rule kinds other than `required` (that is, `minLength`,
`maxLength`, `email` and `password`) return the empty string on every
array value, so a field whose rules contain no `required` rule can never
produce an error for a checkbox (array) value. -/
theorem claim6_array_values_only_fail_required :
    (∀ (rule : ValidationRule) (xs : List String),
      rule.type ≠ ValidationType.required →
      validateRule rule (Value.arr xs) = "") ∧
    (∀ (field : FormField) (xs : List String),
      (∀ r ∈ field.validations, r.type ≠ ValidationType.required) →
      validateField field (Value.arr xs) = "") := by
  refine ⟨validateRule_arr_pass, ?_⟩
  intro field xs h
  rw [validateField, validateRules_eq_empty_iff]
  exact fun r hr => validateRule_arr_pass r xs (h r hr)

/-- C6 witness: an email rule on a non-empty checkbox selection, and a
whole field carrying all four non-required kinds, produce no error. -/
theorem claim6_witness :
    validateRule ⟨ValidationType.email, none, "bad email"⟩ (Value.arr ["a"]) = "" :=
  claim6_array_values_only_fail_required.1 ⟨ValidationType.email, none, "bad email"⟩ ["a"]
    (by decide)

/-! ## C8: submit gating -/

/-- Every entry collected by `validateForm` carries a non-empty message. -/
theorem validateForm_mem_ne_empty (fields : List FormField) (data : FormData) :
    ∀ p ∈ validateForm fields data, p.2 ≠ "" := by
  induction fields with
  | nil => simp [validateForm]
  | cons f rest ih =>
    intro p hp
    simp only [validateForm] at hp
    by_cases he : validateField f (lookupData data f.id) = ""
    · rw [if_neg (by simp [he])] at hp
      exact ih p hp
    · rw [if_pos he] at hp
      rcases List.mem_cons.mp hp with h | h
      · subst h; exact he
      · exact ih p h

/-- `validateForm` collects nothing exactly when every field validates. -/
theorem validateForm_eq_nil_iff (fields : List FormField) (data : FormData) :
    validateForm fields data = [] ↔
      ∀ f ∈ fields, validateField f (lookupData data f.id) = "" := by
  induction fields with
  | nil => simp [validateForm]
  | cons f rest ih =>
    simp only [validateForm]
    by_cases he : validateField f (lookupData data f.id) = ""
    · rw [if_neg (by simp [he])]
      simp [ih, he]
    · rw [if_pos he]
      simp only [List.mem_cons]
      constructor
      · intro h; cases h
      · intro h
        exact absurd (h f (Or.inl rfl)) he

/-- `hasErrors` on a `validateForm` result is just non-emptiness. -/
theorem hasErrors_validateForm_eq_false_iff (fields : List FormField) (data : FormData) :
    hasErrors (validateForm fields data) = false ↔ validateForm fields data = [] := by
  constructor
  · intro h
    cases herr : validateForm fields data with
    | nil => rfl
    | cons p t =>
      exfalso
      have hp : p.2 ≠ "" := validateForm_mem_ne_empty fields data p (by rw [herr]; exact List.mem_cons_self p t)
      rw [herr] at h
      simp [hasErrors] at h
      exact hp h.1
  · intro h
    rw [h]
    rfl

/-! ## C8: submit gating -/

/-- C8.  `handleFormSubmit` stores the `validateForm` result as the new
error map; when any collected error is non-empty it reports a validation
failure (the success path is not taken), when every one is empty it
reports success carrying the current value map — and the error map is
collision-free exactly when every field of the form validates against
its current value. -/
theorem claim8_submit_gating (fields : List FormField) (data : FormData) :
    (handleFormSubmit fields data).2 = validateForm fields data ∧
    ((∃ p ∈ validateForm fields data, p.2 ≠ "") →
      (handleFormSubmit fields data).1 = SubmitResult.validationFailed) ∧
    ((∀ p ∈ validateForm fields data, p.2 = "") →
      (handleFormSubmit fields data).1 = SubmitResult.submitted data) ∧
    (hasErrors (validateForm fields data) = false ↔
      ∀ f ∈ fields, validateField f (lookupData data f.id) = "") := by
  refine ⟨?_, ?_, ?_, ?_⟩
  · unfold handleFormSubmit
    by_cases h : hasErrors (validateForm fields data) <;> simp [h]
  · intro ⟨p, hp, hne⟩
    have h : hasErrors (validateForm fields data) = true := by
      simp only [hasErrors, List.any_eq_true]
      exact ⟨p, hp, by simpa using hne⟩
    simp [handleFormSubmit, h]
  · intro hall
    have h : hasErrors (validateForm fields data) = false := by
      simp only [hasErrors, List.any_eq_false]
      intro p hp
      simpa using hall p hp
    simp [handleFormSubmit, h]
  · rw [hasErrors_validateForm_eq_false_iff, validateForm_eq_nil_iff]

/-- C8 witness: a single required field with no value makes the submit
path report a validation failure. -/
theorem claim8_witness :
    (handleFormSubmit [sampleRequiredMin] []).1 = SubmitResult.validationFailed :=
  (claim8_submit_gating [sampleRequiredMin] []).2.1
    ⟨("r", "This field is required"), by decide, by decide⟩

/-! ## Frame lemmas for the derived-field pass -/

/-- A write under a different key is invisible to `lookupData`. -/
theorem lookupData_insertData_ne (data : FormData) (k k' : String) (v : Value)
    (h : k ≠ k') :
    lookupData (insertData data k v) k' = lookupData data k' := by
  unfold lookupData insertData
  rw [List.find?_cons_of_neg]
  simpa using h

/-- A step whose field (when derived with a formula) has a different id
leaves any other key's entry unchanged. -/
theorem derivedStep_lookup_other (fields : List FormField) (data : FormData)
    (field : FormField) (k : String)
    (h : field.isDerived = true → field.derivedFormula ≠ "" → field.id ≠ k) :
    lookupData (derivedStep fields data field) k = lookupData data k := by
  unfold derivedStep
  by_cases hd : field.isDerived = true ∧ field.derivedFormula ≠ ""
  · rw [if_pos hd]
    by_cases hw : formulaWhitelisted (substituteLabels field fields data)
    · rw [if_pos hw]
      cases he : evalFormula (substituteLabels field fields data) with
      | none => rfl
      | some r => exact lookupData_insertData_ne data field.id k (Value.str r.toString) (h hd.1 hd.2)
    · rw [if_neg hw]
  · rw [if_neg hd]

/-- Folding `derivedStep` over fields none of which is a derived field
with the given id leaves that key's entry unchanged. -/
theorem derivedPass_frame (allFields : List FormField) (l : List FormField)
    (data : FormData) (k : String)
    (h : ∀ f ∈ l, f.isDerived = true → f.derivedFormula ≠ "" → f.id ≠ k) :
    lookupData (l.foldl (derivedStep allFields) data) k = lookupData data k := by
  induction l generalizing data with
  | nil => rfl
  | cons f rest ih =>
    rw [List.foldl_cons]
    rw [ih (derivedStep allFields data f) fun g hg => h g (List.mem_cons_of_mem f hg)]
    exact derivedStep_lookup_other allFields data f k (h f (List.mem_cons_self f rest))

/-- C10.  The derived-field recompute pass of the preview session leaves
the error map untouched, and in a form with pairwise-distinct field ids
the value-map entry of every field that is not derived (or whose formula
is empty) is exactly what it was before the pass. -/
theorem claim10_pass_writes_only_derived_fields
    (st : PreviewState) (field : FormField)
    (hids : (st.form.fields.map FormField.id).Nodup)
    (hmem : field ∈ st.form.fields)
    (hnd : ¬(field.isDerived = true ∧ field.derivedFormula ≠ "")) :
    lookupData (previewUpdateDerivedFields st).formData field.id =
      lookupData st.formData field.id ∧
    (previewUpdateDerivedFields st).formErrors = st.formErrors := by
  constructor
  · show lookupData (updateDerivedFields st.formData st.form) field.id = _
    unfold updateDerivedFields
    apply derivedPass_frame
    intro f hf hder hform heq
    exact hnd ⟨(List.inj_on_of_nodup_map hids hf hmem heq) ▸ hder,
               (List.inj_on_of_nodup_map hids hf hmem heq) ▸ hform⟩
  · rfl

/-- C10 witness: in the `A + B = C` form, the pass leaves the
non-derived field `A`'s entry and the whole error map unchanged. -/
theorem claim10_witness :
    lookupData (previewUpdateDerivedFields
        ⟨sampleSumForm, [("a", Value.str "3"), ("b", Value.str "4")], []⟩).formData
        sampleA.id =
      lookupData [("a", Value.str "3"), ("b", Value.str "4")] sampleA.id ∧
    (previewUpdateDerivedFields
        ⟨sampleSumForm, [("a", Value.str "3"), ("b", Value.str "4")], []⟩).formErrors = [] :=
  claim10_pass_writes_only_derived_fields
    ⟨sampleSumForm, [("a", Value.str "3"), ("b", Value.str "4")], []⟩
    sampleA (by decide) (by decide) (by decide)

/-! ## C3: rejected or failing formulas leave the stored value unchanged -/

/-- C4.  The substitution loop run for a derived field is exactly the
unconditional substitution over the other fields — the fields whose id
equals the derived field's own id are filtered out, so its own label is
never substituted into its own formula; concretely, for the self-referent
formula `"C + A"` only `A` is replaced. -/
theorem claim4_self_label_never_substituted
    (field : FormField) (fields : List FormField) (data : FormData) :
    substituteLabels field fields data =
      substituteLabelsAll field.derivedFormula
        (fields.filter (fun f => f.id ≠ field.id)) data ∧
    substituteLabels sampleSelfRef [sampleA, sampleSelfRef] [("a", Value.str "x")]
      = "C + 0" := by
  refine ⟨?_, by decide⟩
  unfold substituteLabels substituteLabelsAll
  suffices h : ∀ (l : List FormField) (acc : String),
      l.foldl (fun fm f =>
        if f.id ≠ field.id then
          jsReplaceAll fm f.label (coerceNumeric (lookupData data f.id)).toString
        else fm) acc =
      (l.filter (fun f => f.id ≠ field.id)).foldl (fun fm f =>
        jsReplaceAll fm f.label (coerceNumeric (lookupData data f.id)).toString) acc by
    exact h fields field.derivedFormula
  intro l
  induction l with
  | nil => intro acc; rfl
  | cons f rest ih =>
    intro acc
    by_cases hf : f.id ≠ field.id
    · rw [List.foldl_cons, if_pos hf, List.filter_cons_of_pos (by simpa using hf),
        List.foldl_cons]
      exact ih _
    · rw [List.foldl_cons, if_neg hf, List.filter_cons_of_neg (by simpa using hf)]
      exact ih acc

/-! ## C2: the numeric coercion of referenced fields (corrected) -/

/-- C2 counterexample.  The claim says an absent or empty value
substitutes `0`; in fact with both referenced values absent the formula
`"A + B"` becomes `"NaN + NaN"` (because `isNaN(Number(''))` is false
while `parseFloat('')` is NaN), not `"0 + 0"`. -/
theorem claim2_counterexample :
    (coerceNumeric (Value.str "")).toString = "NaN" ∧
    substituteLabels sampleSum [sampleA, sampleB, sampleSum] [] = "NaN + NaN" ∧
    ("NaN" : String) ≠ "0" := by
  refine ⟨by decide, by decide, by decide⟩

/-- C2 amended.  A referenced value substitutes `0` exactly when its
full-string `Number` parse is NaN (non-numeric text, multi-element
arrays); values whose `Number` parse succeeds but whose `parseFloat`
fails — absent values, the empty string and the empty array — substitute
the text `NaN`, and a singleton numeric array substitutes its element's
numeric value. -/
theorem claim2_amended_numeric_coercion (v : Value)
    (h : numberIsNaN (orEmpty v) = true) :
    (coerceNumeric v).toString = "0" ∧
    (coerceNumeric Value.undef).toString = "NaN" ∧
    (coerceNumeric (Value.str "")).toString = "NaN" ∧
    (coerceNumeric (Value.arr [])).toString = "NaN" ∧
    (coerceNumeric (Value.arr ["5"])).toString = "5" := by
  refine ⟨?_, by decide, by decide, by decide, by decide⟩
  simp only [coerceNumeric, h, if_true]
  decide

/-- C2 witness: non-numeric text is coerced to `0`. -/
theorem claim2_witness :
    (coerceNumeric (Value.str "abc")).toString = "0" :=
  (claim2_amended_numeric_coercion (Value.str "abc") (by decide)).1

/-! ## C7: duplicate validation kinds are rejected -/

/-- When the first field matching the id already carries a rule of the
requested kind, `addValidation` changes nothing. -/
theorem addValidationToFields_dup (fields : List FormField) (fid : String)
    (t : ValidationType) (f : FormField)
    (hfind : findField fields fid = some f)
    (hdup : f.validations.any (fun v => v.type == t) = true) :
    addValidationToFields fields fid t = fields := by
  induction fields with
  | nil => simp [findField] at hfind
  | cons g rest ih =>
    by_cases hg : g.id = fid
    · have : g = f := by
        have := hfind
        rw [findField, List.find?_cons_of_pos _ (by simpa using hg)] at this
        exact Option.some.inj this
      subst this
      rw [addValidationToFields, if_pos hg, if_pos hdup]
    · have hfind' : findField rest fid = some f := by
        have := hfind
        rwa [findField, List.find?_cons_of_neg _ (by simpa using hg)] at this
      rw [addValidationToFields, if_neg hg, ih hfind']

/-- Adding a kind not yet present keeps the per-field kinds duplicate
free. -/
theorem addValidationToFields_nodup (fields : List FormField) (fid : String)
    (t : ValidationType)
    (hinv : ∀ f ∈ fields, (f.validations.map ValidationRule.type).Nodup) :
    ∀ f ∈ addValidationToFields fields fid t,
      (f.validations.map ValidationRule.type).Nodup := by
  induction fields with
  | nil => simp [addValidationToFields]
  | cons g rest ih =>
    intro f hf
    rw [addValidationToFields] at hf
    by_cases hg : g.id = fid
    · rw [if_pos hg] at hf
      by_cases hdup : g.validations.any (fun v => v.type == t) = true
      · rw [if_pos hdup] at hf
        exact hinv f hf
      · rw [if_neg hdup] at hf
        have hno : ∀ v ∈ g.validations, v.type ≠ t := by
          intro v hv hvt
          exact hdup (List.any_eq_true.mpr ⟨v, hv, by simp [hvt]⟩)
        rcases List.mem_cons.mp hf with h | h
        · subst h
          simp only [List.map_append, List.map_cons, List.map_nil]
          rw [List.nodup_append]
          refine ⟨hinv g (List.mem_cons_self g rest), List.nodup_singleton _, ?_⟩
          intro x hx hx'
          rcases List.mem_map.mp hx with ⟨v, hv, hvx⟩
          have hxt : x = (newValidation t).type := List.mem_singleton.mp hx'
          exact hno v hv (by rw [hvx, hxt]; simp [newValidation])
        · exact hinv f (List.mem_cons_of_mem g h)
    · rw [if_neg hg] at hf
      rcases List.mem_cons.mp hf with h | h
      · subst h; exact hinv f (List.mem_cons_self f rest)
      · exact ih (fun f' hf' => hinv f' (List.mem_cons_of_mem g hf')) f h

/-- Running `addValidation` twice with the same kind is the same as
running it once. -/
theorem addValidationToFields_idem (fields : List FormField) (fid : String)
    (t : ValidationType) :
    addValidationToFields (addValidationToFields fields fid t) fid t =
      addValidationToFields fields fid t := by
  induction fields with
  | nil => rfl
  | cons g rest ih =>
    by_cases hg : g.id = fid
    · rw [addValidationToFields, if_pos hg]
      by_cases hdup : g.validations.any (fun v => v.type == t) = true
      · rw [if_pos hdup, addValidationToFields, if_pos hg, if_pos hdup]
      · rw [if_neg hdup, addValidationToFields, if_pos hg, if_pos (by
          simp only [List.any_append]
          simp [newValidation])]
    · rw [addValidationToFields, if_neg hg, addValidationToFields, if_neg hg, ih]

/-- C7.  `addValidation` rejects a kind already present on the addressed
field without any state change; it preserves the invariant that every
field carries at most one rule per kind; and adding the same kind twice
is the same as adding it once (so after any call sequence a field holds
at most one `minLength` rule). -/
theorem claim7_duplicate_validation_rejected :
    (∀ (form : FormSchema) (fieldId : String) (t : ValidationType) (f : FormField),
      findField form.fields fieldId = some f →
      f.validations.any (fun v => v.type == t) = true →
      addValidation form fieldId t = form) ∧
    (∀ (form : FormSchema) (fieldId : String) (t : ValidationType),
      (∀ f ∈ form.fields, (f.validations.map ValidationRule.type).Nodup) →
      ∀ f ∈ (addValidation form fieldId t).fields,
        (f.validations.map ValidationRule.type).Nodup) ∧
    (∀ (form : FormSchema) (fieldId : String) (t : ValidationType),
      addValidation (addValidation form fieldId t) fieldId t =
        addValidation form fieldId t) := by
  refine ⟨?_, ?_, ?_⟩
  · intro form fieldId t f hfind hdup
    unfold addValidation
    rw [addValidationToFields_dup form.fields fieldId t f hfind hdup]
  · intro form fieldId t hinv
    exact addValidationToFields_nodup form.fields fieldId t hinv
  · intro form fieldId t
    show ({ form with
        fields := addValidationToFields (addValidationToFields form.fields fieldId t)
          fieldId t } : FormSchema) =
      { form with fields := addValidationToFields form.fields fieldId t }
    rw [addValidationToFields_idem]

/-- C7 witness: adding `minLength` to a field that already carries a
`minLength` rule leaves the form unchanged. -/
theorem claim7_witness :
    addValidation ⟨"f", "form", [sampleRequiredMin], "2024-01-01"⟩ "r"
        ValidationType.minLength =
      ⟨"f", "form", [sampleRequiredMin], "2024-01-01"⟩ :=
  claim7_duplicate_validation_rejected.1 ⟨"f", "form", [sampleRequiredMin], "2024-01-01"⟩
    "r" ValidationType.minLength sampleRequiredMin (by decide) (by decide)

/-! ## C9: round-trip persistence -/

/-- C9.  Saving a form whose id does not collide with any already-saved
form and loading it back by its id returns exactly the saved value (the
save path stores a deep copy, which for plain records is the value
itself, so field order, validations and options are all preserved). -/
theorem claim9_save_load_roundtrip (store : List FormSchema) (form : FormSchema)
    (hfresh : ∀ g ∈ store, g.id ≠ form.id) :
    StorageManager.getFormById (StorageManager.saveForm store form) form.id =
      some form := by
  unfold StorageManager.saveForm StorageManager.getFormById
  rw [List.find?_append]
  have h1 : store.find? (fun f => f.id == form.id) = none := by
    rw [List.find?_eq_none]
    intro g hg
    simpa using hfresh g hg
  rw [h1]
  simp

/-- C9 witness: with one unrelated form already stored, saving and
loading the `A + B` sample form round-trips. -/
theorem claim9_witness :
    StorageManager.getFormById
        (StorageManager.saveForm [⟨"other", "old", [], "2023-01-01"⟩] sampleSumForm)
        sampleSumForm.id = some sampleSumForm :=
  claim9_save_load_roundtrip [⟨"other", "old", [], "2023-01-01"⟩] sampleSumForm
    (by decide)

/-! ## C5: the email rule -/

/-- Characterisation of the first-`@` split. -/
theorem splitAtFirstAmp_some_iff (cs : List Char) (a r : List Char) :
    splitAtFirstAmp cs = some (a, r) ↔ cs = a ++ '@' :: r ∧ '@' ∉ a := by
  induction cs generalizing a with
  | nil =>
    constructor
    · intro h
      simp [splitAtFirstAmp] at h
    · rintro ⟨h, -⟩
      obtain ⟨-, h2⟩ := List.append_eq_nil.mp h.symm
      exact absurd h2 (List.cons_ne_nil _ _)
  | cons c cs ih =>
    rw [splitAtFirstAmp]
    by_cases hc : c = '@'
    · subst hc
      rw [if_pos rfl]
      constructor
      · intro h
        simp only [Option.some.injEq, Prod.mk.injEq] at h
        obtain ⟨h1, h2⟩ := h
        subst h1
        subst h2
        exact ⟨rfl, by simp⟩
      · rintro ⟨heq, hnin⟩
        cases a with
        | nil =>
          simp only [List.nil_append, List.cons.injEq] at heq
          rw [heq.2]
        | cons x a' =>
          exfalso
          simp only [List.cons_append, List.cons.injEq] at heq
          apply hnin
          rw [heq.1]
          exact List.mem_cons_self x a'
    · rw [if_neg hc]
      constructor
      · intro h
        rcases Option.map_eq_some'.mp h with ⟨⟨a', r'⟩, hp, hpe⟩
        simp only [Prod.mk.injEq] at hpe
        obtain ⟨h1, h2⟩ := hpe
        subst h1
        subst h2
        obtain ⟨hcs, hnin⟩ := (ih a').mp hp
        refine ⟨by rw [hcs]; rfl, ?_⟩
        intro hm
        rcases List.mem_cons.mp hm with hm | hm
        · exact hc hm.symm
        · exact hnin hm
      · rintro ⟨heq, hnin⟩
        cases a with
        | nil =>
          exfalso
          simp only [List.nil_append, List.cons.injEq] at heq
          exact hc heq.1
        | cons x a' =>
          simp only [List.cons_append, List.cons.injEq] at heq
          obtain ⟨h1, h2⟩ := heq
          have hnin' : '@' ∉ a' := fun hm => hnin (List.mem_cons_of_mem x hm)
          rw [(ih a').mpr ⟨h2, hnin'⟩]
          simp only [Option.map_some']
          rw [h1]

/-- An admissible email character is not `@`. -/
theorem emailOkChar_ne_amp {x : Char} (h : emailOkChar x = true) : x ≠ '@' := by
  intro he
  subst he
  exact absurd h (by decide)

/-- The executable matcher decides exactly the declarative language of
the email regex. -/
theorem email_matches_iff (s : String) : emailMatches s = true ↔ EmailPattern s := by
  rw [emailMatches]
  cases hsplit : splitAtFirstAmp s.data with
  | none =>
    simp only [Bool.false_eq_true, false_iff]
    rintro ⟨a, b, c, heq, -, -, -, hoka, hokb, hokc⟩
    have hnin : '@' ∉ a := fun hm => emailOkChar_ne_amp (hoka '@' hm) rfl
    have := (splitAtFirstAmp_some_iff s.data a (b ++ '.' :: c)).mpr ⟨heq, hnin⟩
    rw [hsplit] at this
    cases this
  | some p =>
    obtain ⟨a, r⟩ := p
    obtain ⟨heq, hnin⟩ := (splitAtFirstAmp_some_iff s.data a r).mp hsplit
    simp only [Bool.and_eq_true]
    constructor
    · rintro ⟨⟨⟨hne, hoka⟩, hokr⟩, hdot⟩
      have hne' : a ≠ [] := by
        cases a with
        | nil => simp at hne
        | cons x a' => exact List.cons_ne_nil x a'
      have hdot' : '.' ∈ (r.drop 1).dropLast := by simpa using hdot
      have htne : r.drop 1 ≠ [] := by
        intro h0
        rw [h0] at hdot'
        cases hdot'
      rcases List.append_of_mem hdot' with ⟨u, v, huv⟩
      have hfull0 := List.dropLast_append_getLast htne
      obtain ⟨l0, hfull⟩ : ∃ l0, List.drop 1 r = (u ++ '.' :: v) ++ [l0] :=
        ⟨(List.drop 1 r).getLast htne, by rw [← huv]; exact hfull0.symm⟩
      have hrne : r ≠ [] := by
        intro h0
        rw [h0] at htne
        exact htne rfl
      obtain ⟨r0, r', hr⟩ := List.exists_cons_of_ne_nil hrne
      have hr' : r' = (u ++ '.' :: v) ++ [l0] := by
        rw [← hfull, hr]
        rfl
      refine ⟨a, r0 :: u, v ++ [l0], ?_, hne', List.cons_ne_nil r0 u,
        by simp, ?_, ?_, ?_⟩
      · rw [heq, hr, hr']
        simp
      · exact fun x hx => (List.all_eq_true.mp hoka) x hx
      · intro x hx
        apply List.all_eq_true.mp hokr
        rw [hr, hr']
        rcases List.mem_cons.mp hx with hx | hx
        · rw [hx]; exact List.mem_cons_self _ _
        · exact List.mem_cons_of_mem _ (List.mem_append_left _ (List.mem_append_left _ hx))
      · intro x hx
        apply List.all_eq_true.mp hokr
        rw [hr, hr']
        apply List.mem_cons_of_mem
        rcases List.mem_append.mp hx with hx | hx
        · exact List.mem_append_left _ (List.mem_append_right _ (List.mem_cons_of_mem '.' hx))
        · exact List.mem_append_right _ hx
    · rintro ⟨a', b, c, heq', ha', hb, hc, hoka, hokb, hokc⟩
      -- the split is unique, so a' = a and r = b ++ '.' :: c
      have hnin' : '@' ∉ a' := fun hm => emailOkChar_ne_amp (hoka '@' hm) rfl
      have hsome := (splitAtFirstAmp_some_iff s.data a' (b ++ '.' :: c)).mpr ⟨heq', hnin'⟩
      rw [hsplit] at hsome
      simp only [Option.some.injEq, Prod.mk.injEq] at hsome
      obtain ⟨ha2, hr2⟩ := hsome
      subst ha2
      refine ⟨⟨⟨?_, ?_⟩, ?_⟩, ?_⟩
      · simpa [List.isEmpty_iff] using ha'
      · exact List.all_eq_true.mpr fun x hx => hoka x hx
      · rw [hr2]
        apply List.all_eq_true.mpr
        intro x hx
        rcases List.mem_append.mp hx with hx | hx
        · exact hokb x hx
        · rcases List.mem_cons.mp hx with hx | hx
          · rw [hx]; decide
          · exact hokc x hx
      · rw [hr2]
        obtain ⟨b0, b', hbsplit⟩ := List.exists_cons_of_ne_nil hb
        obtain ⟨cl, c', hcl⟩ := List.exists_cons_of_ne_nil (l := c.reverse)
          (by simpa using hc)
        have hcsplit : c = c'.reverse ++ [cl] := by
          have := congrArg List.reverse hcl
          simpa using this
        rw [hbsplit, hcsplit]
        have hdrop : ((b0 :: b') ++ '.' :: (c'.reverse ++ [cl])).drop 1 =
            b' ++ '.' :: (c'.reverse ++ [cl]) := rfl
        rw [hdrop]
        have hassoc : b' ++ '.' :: (c'.reverse ++ [cl]) =
            (b' ++ '.' :: c'.reverse) ++ [cl] := by simp
        rw [hassoc, List.dropLast_concat]
        simp

/-- C5.  An email rule on a string value fails exactly for a non-empty
string rejected by the regex; the executable regex matcher accepts
exactly the `local@domain.tld` decompositions; and a field carrying only
an email rule accepts the empty string (empty values are exempt from
non-required rules). -/
theorem claim5_email_rule (rule : ValidationRule) (s : String)
    (ht : rule.type = ValidationType.email) :
    (validateRule rule (Value.str s) =
      if s ≠ "" ∧ emailMatches s = false then rule.message else "") ∧
    (emailMatches s = true ↔ EmailPattern s) ∧
    (∀ field : FormField, field.validations = [rule] →
      validateField field (Value.str "") = "") := by
  refine ⟨?_, email_matches_iff s, ?_⟩
  · simp [validateRule, ht]
  · intro field hf
    simp [validateField, hf, validateRules, validateRule, ht]

/-- C5 witness: `"a@b"` (no dot after the `@`) fails the email rule with
its message. -/
theorem claim5_witness :
    validateRule ⟨ValidationType.email, none, "Please enter a valid email address"⟩
        (Value.str "a@b") = "Please enter a valid email address" := by
  have h := (claim5_email_rule
    ⟨ValidationType.email, none, "Please enter a valid email address"⟩ "a@b" rfl).1
  rw [h]
  decide
